import Mathlib

/-!
Verification development for the Tax_Reform_Project retrieval-augmented
answering pipeline.  The Python sources under `ai_engine/` are shallowly
embedded: Python strings become `List Char`, pure functions become Lean
functions, the external model calls (Gemini generation, Gemini embeddings,
the Chroma nearest-neighbour query) become explicit inputs of the embedded
functions.  Rational numbers stand in for Python floats in the similarity
arithmetic.
-/

/-- A Python string, embedded as its list of characters. -/
abbrev PyStr := List Char

/-- Conversion from a Lean string literal to the embedded representation. -/
def pys (s : String) : PyStr := s.data

/-- Python `str.lower()` (ASCII case folding, as used by the agent). -/
def pyLower (s : PyStr) : PyStr := s.map Char.toLower

/-- Python `str.upper()` (ASCII case folding, as used by the agent). -/
def pyUpper (s : PyStr) : PyStr := s.map Char.toUpper

/-- Python `str.strip()`: drop leading and trailing whitespace. -/
def pyStrip (s : PyStr) : PyStr :=
  ((s.dropWhile Char.isWhitespace).reverse.dropWhile Char.isWhitespace).reverse

/-- Python `str.replace(" ", "_")` (single-character replacement, as in
`DocumentChunk.__post_init__`). -/
def pyReplace (s : PyStr) : PyStr :=
  s.map (fun c => if c = ' ' then '_' else c)

/-- `leadsWith pat s` is true when `s` starts with `pat`. -/
def leadsWith : PyStr → PyStr → Bool
  | [], _ => true
  | _ :: _, [] => false
  | p :: ps, c :: cs => p = c && leadsWith ps cs

/-- Python `pat in s` (substring containment). -/
def pyContains (s pat : PyStr) : Bool :=
  match s with
  | [] => leadsWith pat []
  | _ :: cs => leadsWith pat s || pyContains cs pat

/-- Worker for Python `str.split()`: `acc` holds the (reversed) word being
scanned. -/
def pyWordsAux : PyStr → PyStr → List PyStr
  | [], acc => if acc = [] then [] else [acc.reverse]
  | c :: cs, acc =>
    if c.isWhitespace then
      if acc = [] then pyWordsAux cs [] else acc.reverse :: pyWordsAux cs []
    else pyWordsAux cs (c :: acc)

/-- Python `str.split()` with no argument: the whitespace-delimited words. -/
def pyWords (s : PyStr) : List PyStr := pyWordsAux s []

/-- The per-segment length measure of `DocumentProcessor._split_text`:
`split_len = len(split.split()) if split.strip() else 0`. -/
def splitLen (s : PyStr) : Nat :=
  if pyStrip s ≠ [] then (pyWords s).length else 0

/-- Fuelled worker for Python `str.split(sep)` with non-empty separator:
non-overlapping left-to-right splitting.  The fuel only serves structural
recursion; `pySplitOn` supplies enough of it. -/
def splitFuel (sep : PyStr) : Nat → PyStr → List PyStr
  | 0, s => [s]
  | _ + 1, [] => [[]]
  | fuel + 1, c :: cs =>
    if leadsWith sep (c :: cs) then
      [] :: splitFuel sep fuel ((c :: cs).drop sep.length)
    else
      (splitFuel sep fuel cs).modifyHead (c :: ·)

/-- Python `str.split(sep)` for a non-empty separator.  (On the empty
separator Python raises; the chunker never calls it that way.) -/
def pySplitOn (sep s : PyStr) : List PyStr :=
  match sep with
  | [] => [s]
  | _ :: _ => splitFuel sep (s.length + 1) s

/-- Emit a pending run of `n` newlines, collapsing runs of three or more to
a double newline. -/
def emitRun (n : Nat) : PyStr :=
  if 3 ≤ n then ['\n', '\n'] else List.replicate n '\n'

/-- Worker for the blank-line normalisation; `n` counts the pending run of
newlines. -/
def collapseAux : PyStr → Nat → PyStr
  | [], n => emitRun n
  | c :: cs, n =>
    if c = '\n' then collapseAux cs (n + 1)
    else emitRun n ++ c :: collapseAux cs 0

/-- The text normalisation `re.sub(r'\n{3,}', '\n\n', text)` performed by
`_recursive_chunk_document`: collapse runs of three or more newlines to a
double newline. -/
def collapseNewlines (s : PyStr) : PyStr := collapseAux s 0

/-- The separator priority list of `_recursive_chunk_document`. -/
def SEPARATORS : List PyStr := [pys "\n\n", pys "\n", pys ". ", pys " ", pys ""]

/-- The separator-selection loop of `_split_text`: the first separator of
the list that is empty or occurs in the text. -/
def chooseSepLoop : List PyStr → PyStr → Option PyStr
  | [], _ => none
  | sep :: rest, text =>
    if sep = [] then some []
    else if pyContains text sep then some sep
    else chooseSepLoop rest text

/-- Separator selection of `_split_text`: run the loop, defaulting to the
last list entry (`separator = separators[-1]`) when the loop never breaks. -/
def chooseSeparator (seps : List PyStr) (text : PyStr) : PyStr :=
  match chooseSepLoop seps text with
  | some s => s
  | none => (seps.getLast?).getD []

/-- The greedy merge loop of `_split_text`.  `cur` is `current_chunk`,
`curLen` is `current_length`; on overflow with a non-empty buffer the
buffer is flushed and re-seeded with its last segment
(`current_chunk = [current_chunk[-1]]`,
`current_length = len(current_chunk[0].split())`), and in every case the
incoming segment is then appended. -/
def mergeLoop (size : Nat) : List PyStr → List PyStr → Nat → List (List PyStr)
  | [], cur, _ => if cur = [] then [] else [cur]
  | s :: rest, cur, curLen =>
    if size < curLen + splitLen s then
      match cur.getLast? with
      | some last =>
        cur :: mergeLoop size rest [last, s] ((pyWords last).length + splitLen s)
      | none => mergeLoop size rest [s] (curLen + splitLen s)
    else
      mergeLoop size rest (cur ++ [s]) (curLen + splitLen s)

/-- The segment list `_split_text` works on: split on the chosen separator,
or into single characters when the chosen separator is empty. -/
def theSplits (seps : List PyStr) (text : PyStr) : List PyStr :=
  if chooseSeparator seps text = [] then text.map (fun c => [c])
  else pySplitOn (chooseSeparator seps text) text

/-- `DocumentProcessor._split_text`: choose a separator, split, greedily
merge, and join each buffer with the separator
(`(separator if separator else "").join(...)`; joining with the empty
separator is plain concatenation, which `List.intercalate []` is). -/
def splitText (text : PyStr) (seps : List PyStr) (chunkSize : Nat) : List PyStr :=
  (mergeLoop chunkSize (theSplits seps text) [] 0).map
    (List.intercalate (chooseSeparator seps text))

/-- The chunk contents produced by `_recursive_chunk_document`: normalise
blank lines, split, and strip each chunk (`content=chunk_text.strip()`). -/
def chunkContents (content : PyStr) (chunkSize : Nat) : List PyStr :=
  (splitText (collapseNewlines content) SEPARATORS chunkSize).map pyStrip

/-- Overlap removal: keep the first buffer whole and drop the head segment
of every later buffer (the head of each later buffer is the re-seeded copy
of the previous buffer's last segment). -/
def dedupFlatten : List (List PyStr) → List PyStr
  | [] => []
  | b :: rest => b ++ (rest.map List.tail).flatten

/-! ### MD5 (Python `hashlib.md5(...).hexdigest()`), RFC 1321

Chunk ids hash the chunk content with MD5 and keep the first eight hex
characters.  The hash is modelled in full; no theorem below depends on its
numeric values, only on its being a function of the content. -/

/-- Word size for the 32-bit modular arithmetic of MD5. -/
def w32 : Nat := 2 ^ 32

/-- Addition modulo `2^32`. -/
def add32 (a b : Nat) : Nat := (a + b) % w32

/-- Left rotation of a 32-bit word. -/
def rotl32 (x n : Nat) : Nat :=
  Nat.lor ((x <<< n) % w32) (x >>> (32 - n))

/-- Bitwise complement of a 32-bit word. -/
def not32 (x : Nat) : Nat := Nat.xor 0xFFFFFFFF x

/-- The MD5 sine-derived round constants. -/
def md5K : List Nat :=
  [0xd76aa478, 0xe8c7b756, 0x242070db, 0xc1bdceee,
   0xf57c0faf, 0x4787c62a, 0xa8304613, 0xfd469501,
   0x698098d8, 0x8b44f7af, 0xffff5bb1, 0x895cd7be,
   0x6b901122, 0xfd987193, 0xa679438e, 0x49b40821,
   0xf61e2562, 0xc040b340, 0x265e5a51, 0xe9b6c7aa,
   0xd62f105d, 0x02441453, 0xd8a1e681, 0xe7d3fbc8,
   0x21e1cde6, 0xc33707d6, 0xf4d50d87, 0x455a14ed,
   0xa9e3e905, 0xfcefa3f8, 0x676f02d9, 0x8d2a4c8a,
   0xfffa3942, 0x8771f681, 0x6d9d6122, 0xfde5380c,
   0xa4beea44, 0x4bdecfa9, 0xf6bb4b60, 0xbebfbc70,
   0x289b7ec6, 0xeaa127fa, 0xd4ef3085, 0x04881d05,
   0xd9d4d039, 0xe6db99e5, 0x1fa27cf8, 0xc4ac5665,
   0xf4292244, 0x432aff97, 0xab9423a7, 0xfc93a039,
   0x655b59c3, 0x8f0ccc92, 0xffeff47d, 0x85845dd1,
   0x6fa87e4f, 0xfe2ce6e0, 0xa3014314, 0x4e0811a1,
   0xf7537e82, 0xbd3af235, 0x2ad7d2bb, 0xeb86d391]

/-- The MD5 per-round rotation amounts. -/
def md5S : List Nat :=
  [7, 12, 17, 22, 7, 12, 17, 22, 7, 12, 17, 22, 7, 12, 17, 22,
   5, 9, 14, 20, 5, 9, 14, 20, 5, 9, 14, 20, 5, 9, 14, 20,
   4, 11, 16, 23, 4, 11, 16, 23, 4, 11, 16, 23, 4, 11, 16, 23,
   6, 10, 15, 21, 6, 10, 15, 21, 6, 10, 15, 21, 6, 10, 15, 21]

/-- The MD5 nonlinear round function. -/
def md5F (i b c d : Nat) : Nat :=
  if i < 16 then Nat.lor (Nat.land b c) (Nat.land (not32 b) d)
  else if i < 32 then Nat.lor (Nat.land d b) (Nat.land (not32 d) c)
  else if i < 48 then Nat.xor (Nat.xor b c) d
  else Nat.xor c (Nat.lor b (not32 d))

/-- The MD5 message-word index for round `i`. -/
def md5G (i : Nat) : Nat :=
  if i < 16 then i
  else if i < 32 then (5 * i + 1) % 16
  else if i < 48 then (3 * i + 5) % 16
  else (7 * i) % 16

/-- Decode a little-endian 32-bit word from four bytes of the block. -/
def decodeLE32 (bytes : List Nat) (j : Nat) : Nat :=
  bytes.getD (4 * j) 0 + 256 * bytes.getD (4 * j + 1) 0 +
    65536 * bytes.getD (4 * j + 2) 0 + 16777216 * bytes.getD (4 * j + 3) 0

/-- One MD5 round step on the running state `(a, b, c, d)`. -/
def md5Step (m : List Nat) (st : Nat × Nat × Nat × Nat) (i : Nat) :
    Nat × Nat × Nat × Nat :=
  let (a, b, c, d) := st
  let f := add32 (add32 (add32 (md5F i b c d) a) (md5K.getD i 0))
    (m.getD (md5G i) 0)
  (d, add32 b (rotl32 f (md5S.getD i 0)), b, c)

/-- Process one padded 64-byte block. -/
def md5Block (st : Nat × Nat × Nat × Nat) (block : List Nat) :
    Nat × Nat × Nat × Nat :=
  let m := (List.range 16).map (decodeLE32 block)
  let (a, b, c, d) := (List.range 64).foldl (md5Step m) st
  let (a0, b0, c0, d0) := st
  (add32 a0 a, add32 b0 b, add32 c0 c, add32 d0 d)

/-- Split the padded byte stream into 64-byte blocks (the padded length is
a multiple of 64). -/
def blocks64 : Nat → List Nat → List (List Nat)
  | 0, _ => []
  | n + 1, l => if l = [] then [] else l.take 64 :: blocks64 n (l.drop 64)

/-- MD5 padding: a `0x80` byte, zeros to 56 mod 64, then the bit length as
a little-endian 64-bit quantity. -/
def md5Pad (msg : List Nat) : List Nat :=
  let L := msg.length
  let zeros := (120 - (L + 1) % 64) % 64
  let bitLen := (8 * L) % 2 ^ 64
  msg ++ 0x80 :: List.replicate zeros 0 ++
    (List.range 8).map (fun i => bitLen / 256 ^ i % 256)

/-- Little-endian byte rendering of one 32-bit state word. -/
def le32Bytes (x : Nat) : List Nat :=
  [x % 256, x / 256 % 256, x / 65536 % 256, x / 16777216 % 256]

/-- One hexadecimal digit (lowercase, as `hexdigest` renders). -/
def hexDigit (d : Nat) : Char :=
  if d < 10 then Char.ofNat ('0'.toNat + d) else Char.ofNat ('a'.toNat + d - 10)

/-- Two hexadecimal digits of one byte. -/
def hexByte (n : Nat) : PyStr := [hexDigit (n / 16), hexDigit (n % 16)]

/-- UTF-8 encoding of one character (Python `str.encode()`), as byte
values. -/
def utf8Bytes (c : Char) : List Nat :=
  let n := c.toNat
  if n < 0x80 then [n]
  else if n < 0x800 then [0xC0 + n / 64, 0x80 + n % 64]
  else if n < 0x10000 then
    [0xE0 + n / 4096, 0x80 + n / 64 % 64, 0x80 + n % 64]
  else
    [0xF0 + n / 262144, 0x80 + n / 4096 % 64, 0x80 + n / 64 % 64, 0x80 + n % 64]

/-- `hashlib.md5(content.encode()).hexdigest()`: the 32 lowercase hex
characters of the MD5 digest of the UTF-8 encoded content. -/
def md5hex (content : PyStr) : PyStr :=
  let padded := md5Pad ((content.map utf8Bytes).flatten)
  let st := blocks64 (padded.length / 64 + 1) padded |>.foldl md5Block
    (0x67452301, 0xefcdab89, 0x98badcfe, 0x10325476)
  let (a, b, c, d) := st
  (([a, b, c, d].map le32Bytes).flatten.map hexByte).flatten

/-- `DocumentChunk.__post_init__`: when no id is supplied, the id is the
source name with spaces replaced by underscores, an underscore, and the
first eight hex characters of the MD5 hash of the content. -/
def mkChunkId (source content : PyStr) : PyStr :=
  pyReplace source ++ '_' :: (md5hex content).take 8

/-- A document chunk: content, its source name (standing for the metadata
dict), and its id. -/
structure Chunk where
  content : PyStr
  source : PyStr
  chunkId : PyStr
  deriving DecidableEq

/-- Chunk construction along `DocumentChunk(..., chunk_id="")`, which lets
`__post_init__` derive the id. -/
def mkChunk (content source : PyStr) : Chunk :=
  ⟨content, source, mkChunkId source content⟩

/-! ### Vector store (`vector_store.py`)

The Chroma collection and the Gemini embedding model are external
collaborators: the collection is modelled as an id-keyed record store and
the embedding model as a function argument, while the post-processing of
`similarity_search` (distance-to-score conversion and threshold filtering)
is embedded from the source. -/

/-- A stored record: `(document text, embedding vector, metadata)`, keyed
by the chunk id in the collection. -/
structure StoreRecord where
  text : PyStr
  embedding : List ℚ
  source : PyStr
  deriving DecidableEq

instance : Inhabited StoreRecord := ⟨⟨[], [], []⟩⟩

/-- The collection: an association list from chunk ids to records. -/
abbrev Collection := List (PyStr × StoreRecord)

/-- Modelled from the spec: the Chroma collection write used by
`VectorStore.add_documents` stores `(id, vector, text, metadata)` per
chunk, "replacing prior records with the same id" (§4.3 `upsert`); the
Chroma client itself is an external collaborator whose storage code is not
part of this repository. -/
def collectionAdd (col : Collection) (k : PyStr) (r : StoreRecord) : Collection :=
  if col.any (fun p => p.1 == k) then
    col.map (fun p => if p.1 = k then (k, r) else p)
  else col ++ [(k, r)]

/-- Look a chunk id up in the collection. -/
def colLookup (col : Collection) (k : PyStr) : Option StoreRecord :=
  (col.find? (fun p => p.1 == k)).map (·.2)

/-- The record `add_documents` stores for a chunk, given the embedding
model `embed`. -/
def chunkRecord (embed : PyStr → List ℚ) (ch : Chunk) : StoreRecord :=
  ⟨ch.content, embed ch.content, ch.source⟩

/-- `VectorStore.add_documents`: embed every chunk's text and write each
`(id, vector, text, metadata)` into the collection, in order.  (The
batching of the source is a pure traversal order detail; per-record writes
are identical.) -/
def addDocuments (col : Collection) (chunks : List Chunk)
    (embed : PyStr → List ℚ) : Collection :=
  chunks.foldl (fun c ch => collectionAdd c ch.chunkId (chunkRecord embed ch)) col

/-- One row of the Chroma nearest-neighbour reply for a query: id, stored
document, metadata (as a key-value list), and the cosine distance. -/
structure QueryRow where
  id : String
  content : String
  metadata : List (String × String)
  distance : ℚ
  deriving DecidableEq

/-- A retrieval result as `similarity_search` assembles it: the row's
fields with the distance converted to the similarity score `1 - d`. -/
structure RetrievedDoc where
  id : String
  content : String
  metadata : List (String × String)
  score : ℚ
  deriving DecidableEq

/-- The per-row conversion of `similarity_search`:
`similarity_score = 1 - raw_distance`. -/
def toDoc (r : QueryRow) : RetrievedDoc :=
  ⟨r.id, r.content, r.metadata, 1 - r.distance⟩

/-- The result loop of `VectorStore.similarity_search` over the rows the
index returned (its `k` nearest records, in the index's order): convert
each distance to a score and keep the row only if
`doc['score'] >= config.SIMILARITY_THRESHOLD`. -/
def similaritySearch (rows : List QueryRow) (threshold : ℚ) : List RetrievedDoc :=
  match rows with
  | [] => []
  | r :: rs =>
    let d := toDoc r
    if threshold ≤ d.score then d :: similaritySearch rs threshold
    else similaritySearch rs threshold

/-! ### Agent pipeline (`agent.py`)

The LangGraph wiring is linear: `decide_retrieval`, conditionally
`retrieve_documents`, then `generate_response`.  The Gemini generation
model is an external collaborator, passed in as an `Except`-valued reply
(`.error` models the API call raising).  Each embedded step also reports
which external model calls it performed. -/

/-- Python `dict.get(key, default)` on the metadata key-value list. -/
def dictGet (d : List (String × String)) (k dflt : String) : String :=
  match d.find? (fun p => p.1 == k) with
  | some p => p.2
  | none => dflt

/-- One source citation as `_extract_sources` builds it. -/
structure SourceCite where
  document : String
  type : String
  score : ℚ
  excerpt : String
  deriving DecidableEq

/-- `TaxQAAgent._extract_sources`: map each retrieved document to its
citation; excerpts longer than 200 characters are cut and marked. -/
def extractSources (docs : List RetrievedDoc) : List SourceCite :=
  docs.map (fun doc =>
    { document := dictGet doc.metadata "source" "Unknown"
      type := dictGet doc.metadata "type" "Unknown"
      score := doc.score
      excerpt :=
        if 200 < doc.content.length then doc.content.take 200 ++ "..."
        else doc.content })

/-- An external model call performed by a pipeline step. -/
inductive CallEvent
  | decision
  | search
  | generation
  deriving DecidableEq

/-- The fixed fallback text of `generate_response`'s exception handler. -/
def genErrorText : String := "Sorry, I encountered an error generating a response."

/-- The response-and-citations part of the agent state after
`generate_response`. -/
structure GenOutcome where
  response : String
  sources : List SourceCite
  deriving DecidableEq

/-- `TaxQAAgent.generate_response`: invoke the generation model on the
assembled context (always — there is no branch on the retrieved set); on
success keep its text and extract citations from the retrieved documents,
on failure substitute the fixed error text with no sources. -/
def generateResponse (docs : List RetrievedDoc) (llmReply : Except Unit String) :
    GenOutcome × List CallEvent :=
  match llmReply with
  | .ok text => ({ response := text, sources := extractSources docs }, [.generation])
  | .error _ => ({ response := genErrorText, sources := [] }, [.generation])

/-- The greeting patterns of `decide_retrieval`. -/
def greetingPatterns : List PyStr :=
  [pys "hello", pys "hi", pys "hey", pys "good morning", pys "good afternoon"]

/-- The gratitude patterns of `decide_retrieval`. -/
def thanksPatterns : List PyStr :=
  [pys "thank", pys "thanks", pys "appreciate"]

/-- The fast-path test of `decide_retrieval`: any greeting or gratitude
pattern occurs as a substring of the lowercased, stripped user message. -/
def isGreetingMsg (msg : PyStr) : Bool :=
  let m := pyStrip (pyLower msg)
  greetingPatterns.any (fun g => pyContains m g) ||
    thanksPatterns.any (fun t => pyContains m t)

/-- `TaxQAAgent.decide_retrieval`: greeting fast path decides `false` with
no model call; otherwise the decision model is invoked and the decision is
whether "RETRIEVE" occurs in its stripped, uppercased reply, defaulting to
`true` when the call fails. -/
def decideRetrieval (msg : PyStr) (llmReply : Except Unit PyStr) :
    Bool × List CallEvent :=
  if isGreetingMsg msg then (false, [])
  else
    match llmReply with
    | .ok reply => (pyContains (pyUpper (pyStrip reply)) (pys "RETRIEVE"), [.decision])
    | .error _ => (true, [.decision])

/-- The response record `TaxQAAgent.chat` returns, together with the trace
of external model calls the pipeline performed. -/
structure ChatResult where
  response : String
  sources : List SourceCite
  retrieved : Bool
  calls : List CallEvent
  deriving DecidableEq

/-- One full pipeline run (`TaxQAAgent.chat` through the compiled graph):
decide, conditionally search (`searchRows` being the index's reply for the
query, `threshold` the configured similarity threshold), then generate.
The state initialises `retrieved_documents` to `[]`, so skipping retrieval
generates from an empty document list. -/
def runPipeline (msg : PyStr) (decideReply : Except Unit PyStr)
    (searchRows : List QueryRow) (threshold : ℚ)
    (genReply : Except Unit String) : ChatResult :=
  let dec := decideRetrieval msg decideReply
  let docs := if dec.1 then similaritySearch searchRows threshold else []
  let rCalls : List CallEvent := if dec.1 then [.search] else []
  let gen := generateResponse docs genReply
  { response := gen.1.response
    sources := gen.1.sources
    retrieved := dec.1
    calls := dec.2 ++ rCalls ++ gen.2 }

/-! ### Helper lemmas -/

/-- `similarity_search` keeps, in order, exactly the converted rows whose
score clears the threshold. -/
theorem similaritySearch_eq_filter (rows : List QueryRow) (t : ℚ) :
    similaritySearch rows t = (rows.map toDoc).filter (fun d => t ≤ d.score) := by
  induction rows with
  | nil => rfl
  | cons r rs ih =>
    by_cases h : t ≤ (toDoc r).score <;>
      simp [similaritySearch, List.filter_cons, h, ih]

/-! ### Claim theorems -/

/-- C9: whenever the generation model call fails, the pipeline returns the
fixed error message with an empty source list; the embedded pipeline is a
total function, so no exception reaches the caller of `chat`. -/
theorem generation_error_fixed_fallback :
    ∀ (msg : PyStr) (dr : Except Unit PyStr) (rows : List QueryRow) (t : ℚ),
    (runPipeline msg dr rows t (.error ())).response = genErrorText ∧
    (runPipeline msg dr rows t (.error ())).sources = [] := by
  intro msg dr rows t
  simp [runPipeline, generateResponse]

/-- C1 (counterexample): with the index empty and the decision model
answering RETRIEVE, `generate_response` does not short-circuit — the
generation model is invoked and its text is returned, rather than a fixed
apology being returned without a generation call. -/
theorem empty_retrieval_invokes_generation_cex :
    (runPipeline (pys "What is VAT?") (.ok (pys "RETRIEVE")) [] 0
        (.ok "model text")).retrieved = true ∧
    CallEvent.generation ∈ (runPipeline (pys "What is VAT?") (.ok (pys "RETRIEVE")) [] 0
        (.ok "model text")).calls ∧
    (runPipeline (pys "What is VAT?") (.ok (pys "RETRIEVE")) [] 0
        (.ok "model text")).response = "model text" := by
  decide

/-- C1 (amended): when the decision was to retrieve and the index returns
no rows, the pipeline still invokes the generation model; on success the
response is the model's text (the system prompt, not the code, asks the
model to say it cannot find the information) and the source list is empty
because citations are extracted from the empty retrieved set. -/
theorem empty_retrieval_generates :
    ∀ (msg : PyStr) (dr : Except Unit PyStr) (t : ℚ) (gtext : String),
    (runPipeline msg dr [] t (.ok gtext)).retrieved = true →
    (runPipeline msg dr [] t (.ok gtext)).response = gtext ∧
    (runPipeline msg dr [] t (.ok gtext)).sources = [] ∧
    CallEvent.generation ∈ (runPipeline msg dr [] t (.ok gtext)).calls := by
  intro msg dr t gtext _
  simp [runPipeline, generateResponse, extractSources, similaritySearch]

/-- Witness for `empty_retrieval_generates` at a concrete non-greeting
query whose decision reply is RETRIEVE. -/
theorem empty_retrieval_generates_witness :
    (runPipeline (pys "What is VAT?") (.ok (pys "RETRIEVE")) [] 0
        (.ok "some answer")).response = "some answer" ∧
    (runPipeline (pys "What is VAT?") (.ok (pys "RETRIEVE")) [] 0
        (.ok "some answer")).sources = [] ∧
    CallEvent.generation ∈ (runPipeline (pys "What is VAT?") (.ok (pys "RETRIEVE")) [] 0
        (.ok "some answer")).calls :=
  empty_retrieval_generates (pys "What is VAT?") (.ok (pys "RETRIEVE")) 0
    "some answer" (by decide)

/-- C8: a message matching the greeting/gratitude patterns makes
`decide_retrieval` answer `false` without any decision-model call, and the
final answer reports `retrieved = false`. -/
theorem greeting_fast_path_no_decision_call :
    ∀ (msg : PyStr) (dr : Except Unit PyStr) (rows : List QueryRow) (t : ℚ)
      (g : Except Unit String),
    isGreetingMsg msg = true →
    decideRetrieval msg dr = (false, []) ∧
    (runPipeline msg dr rows t g).retrieved = false := by
  intro msg dr rows t g h
  constructor
  · simp [decideRetrieval, h]
  · simp [runPipeline, decideRetrieval, h]

/-- Witness for `greeting_fast_path_no_decision_call` at the three spec
messages. -/
theorem greeting_fast_path_no_decision_call_witness :
    (decideRetrieval (pys "Hello") (.error ()) = (false, []) ∧
      (runPipeline (pys "Hello") (.error ()) [] 0 (.ok "x")).retrieved = false) ∧
    (decideRetrieval (pys "Hi there") (.error ()) = (false, []) ∧
      (runPipeline (pys "Hi there") (.error ()) [] 0 (.ok "x")).retrieved = false) ∧
    (decideRetrieval (pys "Thanks") (.error ()) = (false, []) ∧
      (runPipeline (pys "Thanks") (.error ()) [] 0 (.ok "x")).retrieved = false) :=
  ⟨greeting_fast_path_no_decision_call (pys "Hello") _ _ _ _ (by decide),
   greeting_fast_path_no_decision_call (pys "Hi there") _ _ _ _ (by decide),
   greeting_fast_path_no_decision_call (pys "Thanks") _ _ _ _ (by decide)⟩

/-- C10: whenever any greeting/gratitude pattern occurs as a substring of
the lowercased (stripped) message — including inside unrelated words — the
pipeline skips both the decision-model call and the search, and answers
with `retrieved = false`; only the generation call remains in the trace. -/
theorem substring_greeting_skips_decision_and_search :
    ∀ (msg : PyStr) (dr : Except Unit PyStr) (rows : List QueryRow) (t : ℚ)
      (gtext : String),
    (greetingPatterns.any (fun g => pyContains (pyStrip (pyLower msg)) g) ||
      thanksPatterns.any (fun p => pyContains (pyStrip (pyLower msg)) p)) = true →
    decideRetrieval msg dr = (false, []) ∧
    (runPipeline msg dr rows t (.ok gtext)).retrieved = false ∧
    (runPipeline msg dr rows t (.ok gtext)).calls = [CallEvent.generation] := by
  intro msg dr rows t gtext h
  have hg : isGreetingMsg msg = true := h
  refine ⟨by simp [decideRetrieval, hg], ?_, ?_⟩
  · simp [runPipeline, decideRetrieval, hg]
  · simp [runPipeline, decideRetrieval, generateResponse, hg]

/-- Witness for `substring_greeting_skips_decision_and_search` at the
messages "this" and "history", which contain "hi" inside other words. -/
theorem substring_greeting_skips_decision_and_search_witness :
    (decideRetrieval (pys "this") (.error ()) = (false, []) ∧
      (runPipeline (pys "this") (.error ()) [] 0 (.ok "x")).retrieved = false ∧
      (runPipeline (pys "this") (.error ()) [] 0 (.ok "x")).calls =
        [CallEvent.generation]) ∧
    (decideRetrieval (pys "history") (.error ()) = (false, []) ∧
      (runPipeline (pys "history") (.error ()) [] 0 (.ok "x")).retrieved = false ∧
      (runPipeline (pys "history") (.error ()) [] 0 (.ok "x")).calls =
        [CallEvent.generation]) :=
  ⟨substring_greeting_skips_decision_and_search (pys "this") _ _ _ _ (by decide),
   substring_greeting_skips_decision_and_search (pys "history") _ _ _ _ (by decide)⟩

/-- C3: given the index's k-nearest reply sorted by non-decreasing cosine
distance, `similarity_search` returns exactly the rows whose score
`1 - d` clears the threshold, in non-increasing score order, without
padding. -/
theorem similarity_search_filter_sorted :
    ∀ (rows : List QueryRow) (t : ℚ),
    (rows.map QueryRow.distance).Pairwise (· ≤ ·) →
    similaritySearch rows t = (rows.map toDoc).filter (fun d => t ≤ d.score) ∧
    ((similaritySearch rows t).map RetrievedDoc.score).Pairwise (fun a b => b ≤ a) := by
  intro rows t h
  refine ⟨similaritySearch_eq_filter rows t, ?_⟩
  rw [similaritySearch_eq_filter]
  have hsub : List.Sublist
      (((rows.map toDoc).filter (fun d => t ≤ d.score)).map RetrievedDoc.score)
      ((rows.map toDoc).map RetrievedDoc.score) :=
    (List.filter_sublist _).map RetrievedDoc.score
  refine List.Pairwise.sublist hsub ?_
  rw [List.map_map, List.pairwise_map]
  rw [List.pairwise_map] at h
  exact h.imp (fun hle => by
    simpa [toDoc] using sub_le_sub_left hle 1)

/-- Witness for `similarity_search_filter_sorted` on a concrete sorted
two-row reply. -/
theorem similarity_search_filter_sorted_witness :
    similaritySearch [⟨"1", "c1", [], 1/10⟩, ⟨"2", "c2", [], 1/2⟩] (1/2) =
      (([⟨"1", "c1", [], 1/10⟩, ⟨"2", "c2", [], 1/2⟩] : List QueryRow).map toDoc).filter
        (fun d => 1/2 ≤ d.score) ∧
    ((similaritySearch [⟨"1", "c1", [], 1/10⟩, ⟨"2", "c2", [], 1/2⟩] (1/2)).map
      RetrievedDoc.score).Pairwise (fun a b => b ≤ a) :=
  similarity_search_filter_sorted [⟨"1", "c1", [], 1/10⟩, ⟨"2", "c2", [], 1/2⟩] (1/2)
    (by norm_num)

/-- C7: for a fixed reply of the index, raising the similarity threshold
never increases the number of results `similarity_search` returns. -/
theorem similarity_threshold_antitone :
    ∀ (rows : List QueryRow) (t t' : ℚ), t ≤ t' →
    (similaritySearch rows t').length ≤ (similaritySearch rows t).length := by
  intro rows t t' h
  induction rows with
  | nil => exact le_refl _
  | cons r rs ih =>
    by_cases h1 : t' ≤ (toDoc r).score
    · have h2 : t ≤ (toDoc r).score := le_trans h h1
      simpa [similaritySearch, h1, h2] using ih
    · by_cases h2 : t ≤ (toDoc r).score
      · simp only [similaritySearch, h1, h2, if_true, if_false]
        exact le_trans ih (Nat.le_succ _)
      · simpa [similaritySearch, h1, h2] using ih

/-- Witness for `similarity_threshold_antitone` on a concrete row set and
threshold pair. -/
theorem similarity_threshold_antitone_witness :
    (similaritySearch [⟨"1", "c1", [], 1/10⟩] 1).length ≤
      (similaritySearch [⟨"1", "c1", [], 1/10⟩] 0).length :=
  similarity_threshold_antitone [⟨"1", "c1", [], 1/10⟩] 0 1 (by norm_num)

/-- C5 (counterexample): the chunks of sources "a b" and "a_b" with the
same content form distinct (source, content) pairs but receive the same
id, because the id normalises spaces in the source to underscores. -/
theorem chunk_id_collision_cex :
    mkChunkId (pys "a b") (pys "tax") = mkChunkId (pys "a_b") (pys "tax") ∧
    (pys "a b", pys "tax") ≠ ((pys "a_b", pys "tax") : PyStr × PyStr) := by
  constructor
  · show pyReplace (pys "a b") ++ '_' :: (md5hex (pys "tax")).take 8 =
      pyReplace (pys "a_b") ++ '_' :: (md5hex (pys "tax")).take 8
    exact congrArg (· ++ '_' :: (md5hex (pys "tax")).take 8) (by decide)
  · decide

/-- C5 (amended): chunk ids are a deterministic function of (source,
content); for a fixed content, two sources receive the same id exactly
when their space-to-underscore normalisations coincide — so distinct
(source, content) pairs are not guaranteed distinct ids. -/
theorem chunk_id_eq_iff_source_normalized :
    ∀ (s₁ s₂ c : PyStr),
    mkChunkId s₁ c = mkChunkId s₂ c ↔ pyReplace s₁ = pyReplace s₂ := by
  intro s₁ s₂ c
  unfold mkChunkId
  constructor
  · exact fun h => List.append_cancel_right h
  · exact fun h => by rw [h]

/-- The source's length bookkeeping `len(split.split())` agrees with the
guarded `split_len` measure: splitting a whitespace-only string yields no
words. -/
theorem splitLen_eq_words (s : PyStr) : splitLen s = (pyWords s).length := by
  unfold splitLen
  split
  case isTrue => rfl
  case isFalse h =>
    simp only [ne_eq, not_not] at h
    have hws : ∀ c ∈ s, c.isWhitespace = true := by
      have h1 : List.dropWhile Char.isWhitespace
          ((List.dropWhile Char.isWhitespace s).reverse) = [] := by
        have := congrArg List.reverse h
        simpa [pyStrip] using this
      have h2 : ∀ c ∈ (List.dropWhile Char.isWhitespace s).reverse,
          c.isWhitespace = true := List.dropWhile_eq_nil_iff.mp h1
      intro c hc
      rcases List.mem_append.mp
          ((List.takeWhile_append_dropWhile (p := Char.isWhitespace) (l := s)) ▸ hc) with
        h3 | h3
      · exact List.mem_takeWhile_imp h3
      · exact h2 c (List.mem_reverse.mpr h3)
    have hall : ∀ (l : PyStr), (∀ c ∈ l, c.isWhitespace = true) →
        pyWordsAux l [] = [] := by
      intro l
      induction l with
      | nil => intro _; rfl
      | cons c cs ih =>
        intro hl
        simp only [pyWordsAux, hl c (List.mem_cons_self c cs), if_true]
        exact ih (fun d hd => hl d (List.mem_cons_of_mem c hd))
    rw [pyWords, hall s hws]
    rfl

/-- Every buffer the merge loop of `_split_text` closes either stays
within the size budget or holds at most two segments: the invariant behind
the amended chunk-size bound. -/
theorem mergeLoop_buffers (size : Nat) :
    ∀ (splits : List PyStr) (cur : List PyStr) (curLen : Nat),
    curLen = (cur.map splitLen).sum →
    ((cur.map splitLen).sum ≤ size ∨ cur.length ≤ 2) →
    ∀ b ∈ mergeLoop size splits cur curLen,
      (b.map splitLen).sum ≤ size ∨ b.length ≤ 2 := by
  intro splits
  induction splits with
  | nil =>
    intro cur curLen _ h2 b hb
    simp only [mergeLoop] at hb
    split at hb
    · exact absurd hb (List.not_mem_nil b)
    · rw [List.mem_singleton.mp hb]; exact h2
  | cons s rest ih =>
    intro cur curLen h1 h2 b hb
    simp only [mergeLoop] at hb
    split at hb
    · cases hlast : cur.getLast? with
      | some last =>
        rw [hlast] at hb
        rcases List.mem_cons.mp hb with hb | hb
        · rw [hb]; exact h2
        · refine ih [last, s] _ ?_ (Or.inr (by simp)) b hb
          simp [splitLen_eq_words]
      | none =>
        rw [hlast] at hb
        have hcur : cur = [] := List.getLast?_eq_none_iff.mp hlast
        refine ih [s] _ ?_ (Or.inr (by simp)) b hb
        subst hcur
        simp at h1
        simp [h1]
    · rename_i hle
      refine ih (cur ++ [s]) _ ?_ (Or.inl ?_) b hb
      · simp [h1]
      · have : curLen + splitLen s ≤ size := by omega
        calc ((cur ++ [s]).map splitLen).sum
            = (cur.map splitLen).sum + splitLen s := by simp
          _ = curLen + splitLen s := by rw [h1]
          _ ≤ size := this

/-- Joining a non-singleton list needs one separator after the head. -/
theorem intercalate_cons_of_ne_nil (sep x : PyStr) (xs : List PyStr) (h : xs ≠ []) :
    List.intercalate sep (x :: xs) = x ++ sep ++ List.intercalate sep xs := by
  cases xs with
  | nil => exact absurd rfl h
  | cons y ys => simp [List.intercalate, List.intersperse]

/-- One scanning step of the word splitter on a whitespace character:
flush the pending word and continue fresh. -/
theorem pyWordsAux_ws_step (c : Char) (rest acc : PyStr)
    (hc : c.isWhitespace = true) :
    pyWordsAux (c :: rest) acc =
      (if acc = [] then [] else [acc.reverse]) ++ pyWordsAux rest [] := by
  simp only [pyWordsAux, hc, if_true]
  by_cases hacc : acc = [] <;> simp [hacc]

/-- One scanning step of the word splitter on a non-whitespace character:
extend the pending word. -/
theorem pyWordsAux_cons_step (c : Char) (rest acc : PyStr)
    (hc : ¬ c.isWhitespace = true) :
    pyWordsAux (c :: rest) acc = pyWordsAux rest (c :: acc) := by
  simp only [pyWordsAux]
  rw [if_neg hc]

/-- Scanning across a whitespace run flushes the pending word and
continues fresh: the run behaves like an end of input for the word being
accumulated. -/
theorem pyWordsAux_ws_append (c : Char) (cs y : PyStr)
    (hws : ∀ d ∈ c :: cs, d.isWhitespace = true) :
    ∀ acc, pyWordsAux ((c :: cs) ++ y) acc =
      (if acc = [] then [] else [acc.reverse]) ++ pyWordsAux y [] := by
  induction cs generalizing c with
  | nil =>
    intro acc
    have hc : c.isWhitespace = true := hws c (List.mem_cons_self c [])
    exact pyWordsAux_ws_step c y acc hc
  | cons c2 cs2 ih =>
    intro acc
    have hc : c.isWhitespace = true := hws c (List.mem_cons_self c (c2 :: cs2))
    have ih2 := ih c2 (fun d hd => hws d (List.mem_cons_of_mem c hd)) []
    simp only [List.cons_append] at ih2 ⊢
    rw [pyWordsAux_ws_step c (c2 :: (cs2 ++ y)) acc hc, ih2]
    simp

/-- A non-empty all-whitespace separator spliced between two strings makes
their word lists concatenate. -/
theorem pyWordsAux_split_at_ws (sep : PyStr) (hne : sep ≠ [])
    (hws : ∀ d ∈ sep, d.isWhitespace = true) (y : PyStr) :
    ∀ (x : PyStr) (acc : PyStr),
    pyWordsAux (x ++ sep ++ y) acc = pyWordsAux x acc ++ pyWordsAux y [] := by
  intro x
  induction x with
  | nil =>
    intro acc
    cases sep with
    | nil => exact absurd rfl hne
    | cons c cs =>
      simp only [List.nil_append]
      rw [pyWordsAux_ws_append c cs y hws acc]
      by_cases hacc : acc = [] <;> simp [pyWordsAux, hacc]
  | cons c x2 ih =>
    intro acc
    show pyWordsAux (c :: (x2 ++ sep ++ y)) acc =
      pyWordsAux (c :: x2) acc ++ pyWordsAux y []
    by_cases hc : c.isWhitespace = true
    · rw [pyWordsAux_ws_step c (x2 ++ sep ++ y) acc hc,
        pyWordsAux_ws_step c x2 acc hc, ih []]
      simp [List.append_assoc]
    · rw [pyWordsAux_cons_step c (x2 ++ sep ++ y) acc hc,
        pyWordsAux_cons_step c x2 acc hc]
      exact ih (c :: acc)

/-- For a non-empty all-whitespace separator, the word count of the joined
buffer is exactly the sum of the segments' word counts: joining neither
merges words nor creates tokens. -/
theorem wc_intercalate_ws (sep : PyStr) (hne : sep ≠ [])
    (hws : ∀ d ∈ sep, d.isWhitespace = true) :
    ∀ (b : List PyStr),
    (pyWords (List.intercalate sep b)).length =
      (b.map (fun s => (pyWords s).length)).sum := by
  intro b
  induction b with
  | nil => simp [List.intercalate, pyWords, pyWordsAux]
  | cons x bs ih =>
    cases bs with
    | nil => simp [List.intercalate]
    | cons b0 bs2 =>
      rw [intercalate_cons_of_ne_nil sep x _ (by simp)]
      unfold pyWords at ih ⊢
      rw [pyWordsAux_split_at_ws sep hne hws _ x []]
      simp only [List.length_append, List.map_cons, List.sum_cons, ih]

/-- C2 (counterexample): with `chunk_size = 10`, a document whose
paragraphs hold 6, 6 and 1 words produces a middle chunk of 12 words made
of two paragraphs — the bound fails even though no single segment of the
document exceeds the size (so the single-oversized-segment pass-through
exception does not apply). -/
theorem chunk_size_bound_cex :
    chunkContents (pys "aa bb cc dd ee ff\n\ngg hh ii jj kk ll\n\nmm") 10 =
      [pys "aa bb cc dd ee ff",
       pys "aa bb cc dd ee ff\n\ngg hh ii jj kk ll",
       pys "gg hh ii jj kk ll\n\nmm"] ∧
    10 < (pyWords (pys "aa bb cc dd ee ff\n\ngg hh ii jj kk ll")).length ∧
    (∀ s ∈ theSplits SEPARATORS
        (collapseNewlines (pys "aa bb cc dd ee ff\n\ngg hh ii jj kk ll\n\nmm")),
      (pyWords s).length ≤ 10) := by
  decide

/-- C2 (amended): for every document and size, every chunk buffer the
chunker closes either keeps the code's size measure — the sum of the
segments' word counts — within `chunk_size`, or holds at most two
segments (a single oversized pass-through segment, or the overlap-seed
segment together with the one segment whose arrival overflowed the
buffer); and whenever the chosen separator is non-empty whitespace
(`"\n\n"`, `"\n"` or `" "`) this measure is exactly the joined chunk
text's word count, so the chunk's word count obeys the same bound with
the same two-segment exception.  (For the `". "` separator, joining
re-inserts `"."` tokens beside empty segments, so the chunk's word count
can exceed `chunk_size` even within the measure bound.) -/
theorem chunk_size_bound_amended :
    ∀ (content : PyStr) (size : Nat) (b : List PyStr),
    b ∈ mergeLoop size (theSplits SEPARATORS (collapseNewlines content)) [] 0 →
    ((b.map splitLen).sum ≤ size ∨ b.length ≤ 2) ∧
    (chooseSeparator SEPARATORS (collapseNewlines content) ≠ [] →
      (∀ d ∈ chooseSeparator SEPARATORS (collapseNewlines content),
        d.isWhitespace = true) →
      (pyWords (List.intercalate
          (chooseSeparator SEPARATORS (collapseNewlines content)) b)).length ≤ size ∨
        b.length ≤ 2) := by
  intro content size b hb
  have h1 := mergeLoop_buffers size (theSplits SEPARATORS (collapseNewlines content))
    [] 0 rfl (Or.inr (by simp)) b hb
  refine ⟨h1, fun hne hws => ?_⟩
  rw [wc_intercalate_ws _ hne hws b]
  have hmap : b.map (fun s => (pyWords s).length) = b.map splitLen :=
    List.map_congr_left (fun s _ => (splitLen_eq_words s).symm)
  rw [hmap]
  exact h1

/-- Witness for `chunk_size_bound_amended` at the oversized two-segment
buffer of the counterexample document, whose chosen separator is the
whitespace paragraph break, exercising both the measure bound and the
word-count bound. -/
theorem chunk_size_bound_amended_witness :
    ((([pys "aa bb cc dd ee ff", pys "gg hh ii jj kk ll"].map splitLen).sum ≤ 10 ∨
      ([pys "aa bb cc dd ee ff", pys "gg hh ii jj kk ll"] : List PyStr).length ≤ 2) ∧
     ((pyWords (List.intercalate
          (chooseSeparator SEPARATORS
            (collapseNewlines (pys "aa bb cc dd ee ff\n\ngg hh ii jj kk ll\n\nmm")))
          [pys "aa bb cc dd ee ff", pys "gg hh ii jj kk ll"])).length ≤ 10 ∨
      ([pys "aa bb cc dd ee ff", pys "gg hh ii jj kk ll"] : List PyStr).length ≤ 2)) :=
  ⟨(chunk_size_bound_amended (pys "aa bb cc dd ee ff\n\ngg hh ii jj kk ll\n\nmm") 10
      [pys "aa bb cc dd ee ff", pys "gg hh ii jj kk ll"] (by decide)).1,
   (chunk_size_bound_amended (pys "aa bb cc dd ee ff\n\ngg hh ii jj kk ll\n\nmm") 10
      [pys "aa bb cc dd ee ff", pys "gg hh ii jj kk ll"] (by decide)).2
     (by decide) (by decide)⟩

/-- The splitting worker never returns an empty piece list. -/
theorem splitFuel_ne_nil (sep : PyStr) :
    ∀ (fuel : Nat) (s : PyStr), splitFuel sep fuel s ≠ [] := by
  intro fuel
  induction fuel with
  | zero => intro s; simp [splitFuel]
  | succ n ih =>
    intro s
    cases s with
    | nil => simp [splitFuel]
    | cons c cs =>
      simp only [splitFuel]
      split
      · simp
      · cases hsf : splitFuel sep n cs with
        | nil => exact absurd hsf (ih cs)
        | cons h t => simp [hsf, List.modifyHead]

/-- A string decomposes as a matched leading pattern plus the rest. -/
theorem leadsWith_decomp :
    ∀ (pat s : PyStr), leadsWith pat s = true → s = pat ++ s.drop pat.length := by
  intro pat
  induction pat with
  | nil => intro s _; simp
  | cons p ps ih =>
    intro s h
    cases s with
    | nil => simp [leadsWith] at h
    | cons c cs =>
      simp only [leadsWith, Bool.and_eq_true, decide_eq_true_eq] at h
      obtain ⟨hpc, hrest⟩ := h
      have hd := ih cs hrest
      simp only [List.length_cons, List.cons_append, List.drop_succ_cons]
      rw [hpc]
      exact congrArg (c :: ·) hd

/-- Joining the split pieces with the separator restores the string. -/
theorem intercalate_splitFuel (a : Char) (sp : PyStr) :
    ∀ (fuel : Nat) (s : PyStr), s.length < fuel →
    List.intercalate (a :: sp) (splitFuel (a :: sp) fuel s) = s := by
  intro fuel
  induction fuel with
  | zero => intro s h; omega
  | succ n ih =>
    intro s h
    cases s with
    | nil => simp [splitFuel, List.intercalate]
    | cons c cs =>
      simp only [splitFuel]
      split
      case isTrue hpre =>
        rw [intercalate_cons_of_ne_nil _ _ _ (splitFuel_ne_nil _ _ _)]
        have hlen : ((c :: cs).drop (a :: sp).length).length < n := by
          have hcs : cs.length < n := Nat.lt_of_succ_lt_succ h
          simp only [List.length_drop, List.length_cons]
          omega
        rw [ih _ hlen]
        have hd := leadsWith_decomp (a :: sp) (c :: cs) hpre
        simp only [List.nil_append]
        exact hd.symm
      case isFalse =>
        cases hsf : splitFuel (a :: sp) n cs with
        | nil => exact absurd hsf (splitFuel_ne_nil _ _ _)
        | cons hh ht =>
          simp only [List.modifyHead]
          have hcs : List.intercalate (a :: sp) (hh :: ht) = cs := by
            rw [← hsf]; exact ih cs (Nat.lt_of_succ_lt_succ h)
          cases ht with
          | nil =>
            have e1 : List.intercalate (a :: sp) [hh] = hh := by
              simp [List.intercalate]
            have e2 : List.intercalate (a :: sp) [c :: hh] = c :: hh := by
              simp [List.intercalate]
            rw [e1] at hcs
            rw [e2, hcs]
          | cons t0 ts =>
            rw [intercalate_cons_of_ne_nil _ _ _ (by simp)]
            rw [intercalate_cons_of_ne_nil _ _ _ (by simp)] at hcs
            rw [← hcs]
            simp

/-- Python splitting then joining on a non-empty separator restores the
string. -/
theorem pySplitOn_reconstruct (sep s : PyStr) (h : sep ≠ []) :
    List.intercalate sep (pySplitOn sep s) = s := by
  cases sep with
  | nil => exact absurd rfl h
  | cons a sp => exact intercalate_splitFuel a sp (s.length + 1) s (Nat.lt_succ_self _)

/-- Joining with the empty separator is plain concatenation. -/
theorem intercalate_nil_eq_flatten :
    ∀ (xs : List PyStr), List.intercalate [] xs = xs.flatten := by
  intro xs
  induction xs with
  | nil => simp [List.intercalate]
  | cons x ys ih =>
    cases ys with
    | nil => simp [List.intercalate]
    | cons y zs =>
      rw [intercalate_cons_of_ne_nil _ _ _ (by simp), ih]
      simp

/-- Concatenating the single-character pieces restores the string. -/
theorem flatten_map_singleton (s : PyStr) :
    (s.map (fun c => [c])).flatten = s := by
  induction s with
  | nil => rfl
  | cons c cs ih => simp [ih]

/-- Joining the chosen segments with the chosen separator restores the
text, in both the real-separator and the character-level branches. -/
theorem intercalate_theSplits (seps : List PyStr) (text : PyStr) :
    List.intercalate (chooseSeparator seps text) (theSplits seps text) = text := by
  unfold theSplits
  by_cases h : chooseSeparator seps text = []
  · rw [if_pos h, h, intercalate_nil_eq_flatten, flatten_map_singleton]
  · rw [if_neg h]
    exact pySplitOn_reconstruct _ _ h

/-- The merge loop's buffers, after dropping the re-seeded head of every
later buffer, list exactly the incoming segments: the first produced
buffer extends the running buffer, and the de-duplicated concatenation is
the running buffer followed by the remaining segments. -/
theorem mergeLoop_dedup (size : Nat) :
    ∀ (splits : List PyStr) (cur : List PyStr) (curLen : Nat), cur ≠ [] →
    (∃ ext, (mergeLoop size splits cur curLen).head? = some (cur ++ ext)) ∧
    dedupFlatten (mergeLoop size splits cur curLen) = cur ++ splits := by
  intro splits
  induction splits with
  | nil =>
    intro cur curLen hcur
    simp only [mergeLoop, if_neg hcur]
    exact ⟨⟨[], by simp⟩, by simp [dedupFlatten]⟩
  | cons s rest ih =>
    intro cur curLen hcur
    simp only [mergeLoop]
    split
    · cases hlast : cur.getLast? with
      | none => exact absurd (List.getLast?_eq_none_iff.mp hlast) hcur
      | some last =>
        obtain ⟨⟨ext, hhead⟩, hded⟩ :=
          ih [last, s] ((pyWords last).length + splitLen s) (by simp)
        refine ⟨⟨[], by simp⟩, ?_⟩
        show dedupFlatten
            (cur :: mergeLoop size rest [last, s] ((pyWords last).length + splitLen s)) =
          cur ++ s :: rest
        cases hM : mergeLoop size rest [last, s] ((pyWords last).length + splitLen s) with
        | nil => rw [hM] at hhead; simp at hhead
        | cons h0 t =>
          rw [hM] at hhead hded
          have hh0 : h0 = last :: s :: ext := by simpa using hhead
          subst hh0
          simp only [dedupFlatten, List.map_cons, List.flatten_cons,
            List.cons_append, List.nil_append, List.tail_cons] at hded ⊢
          have hrest : ext ++ (t.map List.tail).flatten = rest := by
            simpa using hded
          rw [← hrest]
    · obtain ⟨⟨ext, hhead⟩, hded⟩ := ih (cur ++ [s]) (curLen + splitLen s) (by simp)
      refine ⟨⟨[s] ++ ext, by simpa [List.append_assoc] using hhead⟩, ?_⟩
      rw [hded]
      simp

/-- At the top level the de-duplicated buffers are exactly the segments. -/
theorem mergeLoop_dedup_top (size : Nat) (splits : List PyStr) :
    dedupFlatten (mergeLoop size splits [] 0) = splits := by
  cases splits with
  | nil => rfl
  | cons s rest =>
    simp only [mergeLoop, List.getLast?_nil]
    split
    · exact (mergeLoop_dedup size rest [s] (0 + splitLen s) (by simp)).2
    · simpa using (mergeLoop_dedup size rest ([] ++ [s]) (0 + splitLen s) (by simp)).2

/-- C4 (counterexample): the chunker strips each chunk's content, so for a
source with boundary whitespace the concatenation of the produced chunk
contents (a single chunk here, so no overlap is involved) differs from the
blank-line-normalised source text. -/
theorem chunk_reconstruction_cex :
    chunkContents (pys " hello ") 1000 = [pys "hello"] ∧
    (chunkContents (pys " hello ") 1000).flatten ≠
      collapseNewlines (pys " hello ") := by
  decide

/-- C4 (amended): before the final per-chunk strip, reconstruction holds
at the segment level: dropping the re-seeded head segment of every chunk
buffer after the first and joining the remaining segments with the chosen
separator restores the blank-line-normalised source exactly; the produced
chunk texts are precisely these buffers joined with the separator. -/
theorem chunk_reconstruction_amended :
    ∀ (content : PyStr) (size : Nat),
    List.intercalate (chooseSeparator SEPARATORS (collapseNewlines content))
        (dedupFlatten
          (mergeLoop size (theSplits SEPARATORS (collapseNewlines content)) [] 0)) =
      collapseNewlines content ∧
    splitText (collapseNewlines content) SEPARATORS size =
      (mergeLoop size (theSplits SEPARATORS (collapseNewlines content)) [] 0).map
        (List.intercalate (chooseSeparator SEPARATORS (collapseNewlines content))) := by
  intro content size
  refine ⟨?_, rfl⟩
  rw [mergeLoop_dedup_top]
  exact intercalate_theSplits SEPARATORS (collapseNewlines content)

/-- Looking up the head key short-circuits, otherwise recurse. -/
theorem colLookup_cons (p : PyStr × StoreRecord) (l : Collection) (k : PyStr) :
    colLookup (p :: l) k = if p.1 = k then some p.2 else colLookup l k := by
  by_cases h : p.1 = k <;> simp [colLookup, List.find?_cons, h]

/-- Replacing every entry carrying key `k` makes `k` look up the new
record, provided some entry carries it. -/
theorem colLookup_map_replace (col : Collection) (k : PyStr) (r : StoreRecord)
    (hex : ∃ p ∈ col, p.1 = k) :
    colLookup (col.map (fun p => if p.1 = k then (k, r) else p)) k = some r := by
  induction col with
  | nil => simp at hex
  | cons p t ih =>
    by_cases hpk : p.1 = k
    · simp [List.map_cons, if_pos hpk, colLookup_cons]
    · have hex2 : ∃ q ∈ t, q.1 = k := by
        rcases hex with ⟨q, hq, hqk⟩
        rcases List.mem_cons.mp hq with hq | hq
        · exact absurd (hq ▸ hqk) hpk
        · exact ⟨q, hq, hqk⟩
      simpa [List.map_cons, if_neg hpk, colLookup_cons, hpk] using ih hex2

/-- Appending a fresh entry makes its key look it up, provided no existing
entry carries the key. -/
theorem colLookup_append_new (col : Collection) (k : PyStr) (r : StoreRecord)
    (hall : ∀ p ∈ col, ¬ p.1 = k) :
    colLookup (col ++ [(k, r)]) k = some r := by
  induction col with
  | nil => simp [colLookup_cons]
  | cons p t ih =>
    have hpk := hall p (List.mem_cons_self p t)
    simp only [List.cons_append, colLookup_cons, if_neg hpk]
    exact ih (fun q hq => hall q (List.mem_cons_of_mem p hq))

/-- The collection write gives the written id the written record. -/
theorem colLookup_collectionAdd (col : Collection) (k : PyStr) (r : StoreRecord) :
    colLookup (collectionAdd col k r) k = some r := by
  by_cases h : col.any (fun p => p.1 == k) = true
  · rw [collectionAdd, if_pos h]
    exact colLookup_map_replace col k r (by simpa [List.any_eq_true] using h)
  · rw [collectionAdd, if_neg h]
    exact colLookup_append_new col k r
      (fun p hp hpk => h (List.any_eq_true.mpr ⟨p, hp, by simp [hpk]⟩))

/-- After a write, some entry carries the written key. -/
theorem hasKey_collectionAdd_self (col : Collection) (k : PyStr) (r : StoreRecord) :
    ∃ p ∈ collectionAdd col k r, p.1 = k := by
  by_cases h : col.any (fun p => p.1 == k) = true
  · rw [collectionAdd, if_pos h]
    obtain ⟨p, hp, hpk⟩ : ∃ p ∈ col, p.1 = k := by simpa [List.any_eq_true] using h
    exact ⟨(k, r), List.mem_map.mpr ⟨p, hp, by simp [hpk]⟩, rfl⟩
  · rw [collectionAdd, if_neg h]
    exact ⟨(k, r), by simp, rfl⟩

/-- After a write, every entry carrying the written key holds the written
record. -/
theorem uniform_collectionAdd_self (col : Collection) (k : PyStr) (r : StoreRecord) :
    ∀ p ∈ collectionAdd col k r, p.1 = k → p.2 = r := by
  by_cases h : col.any (fun p => p.1 == k) = true
  · rw [collectionAdd, if_pos h]
    intro q hq hqk
    obtain ⟨p, _, hfp⟩ := List.mem_map.mp hq
    by_cases hpk : p.1 = k
    · rw [if_pos hpk] at hfp
      rw [← hfp]
    · rw [if_neg hpk] at hfp
      exact absurd (hfp ▸ hqk) hpk
  · rw [collectionAdd, if_neg h]
    intro q hq hqk
    rcases List.mem_append.mp hq with hq | hq
    · have hall : ∀ p ∈ col, ¬ p.1 = k := fun p hp hpk =>
        h (List.any_eq_true.mpr ⟨p, hp, by simp [hpk]⟩)
      exact absurd hqk (hall q hq)
    · rw [List.mem_singleton.mp hq]

/-- A write under a different id preserves the presence of a key. -/
theorem hasKey_collectionAdd_mono (col : Collection) (k k' : PyStr)
    (r' : StoreRecord) (hk : ∃ p ∈ col, p.1 = k) :
    ∃ p ∈ collectionAdd col k' r', p.1 = k := by
  obtain ⟨p, hp, hpk⟩ := hk
  by_cases h : col.any (fun q => q.1 == k') = true
  · rw [collectionAdd, if_pos h]
    by_cases hpk' : p.1 = k'
    · exact ⟨(k', r'), List.mem_map.mpr ⟨p, hp, by simp [hpk']⟩, by
        rw [← hpk, ← hpk']⟩
    · exact ⟨p, List.mem_map.mpr ⟨p, hp, by simp [hpk']⟩, hpk⟩
  · rw [collectionAdd, if_neg h]
    exact ⟨p, List.mem_append_left _ hp, hpk⟩

/-- A write under a different id preserves key-record uniformity. -/
theorem uniform_collectionAdd_preserve (col : Collection) (k : PyStr)
    (r : StoreRecord) (k' : PyStr) (r' : StoreRecord) (hne : ¬ k' = k)
    (hu : ∀ p ∈ col, p.1 = k → p.2 = r) :
    ∀ p ∈ collectionAdd col k' r', p.1 = k → p.2 = r := by
  by_cases h : col.any (fun q => q.1 == k') = true
  · rw [collectionAdd, if_pos h]
    intro q hq hqk
    obtain ⟨p, hp, hfp⟩ := List.mem_map.mp hq
    by_cases hpk' : p.1 = k'
    · rw [if_pos hpk'] at hfp
      rw [← hfp] at hqk
      exact absurd hqk hne
    · rw [if_neg hpk'] at hfp
      rw [← hfp] at hqk
      exact hfp ▸ hu p hp hqk
  · rw [collectionAdd, if_neg h]
    intro q hq hqk
    rcases List.mem_append.mp hq with hq | hq
    · exact hu q hq hqk
    · rw [List.mem_singleton.mp hq] at hqk
      exact absurd hqk hne

/-- Re-writing a key that is present with the record it uniformly carries
leaves the collection unchanged. -/
theorem collectionAdd_eq_self (col : Collection) (k : PyStr) (r : StoreRecord)
    (hk : ∃ p ∈ col, p.1 = k) (hu : ∀ p ∈ col, p.1 = k → p.2 = r) :
    collectionAdd col k r = col := by
  have h : col.any (fun p => p.1 == k) = true := by
    simpa [List.any_eq_true] using hk
  rw [collectionAdd, if_pos h]
  have : ∀ p ∈ col, (if p.1 = k then (k, r) else p) = p := by
    intro p hp
    by_cases hpk : p.1 = k
    · rw [if_pos hpk]
      have h2 := hu p hp hpk
      obtain ⟨p1, p2⟩ := p
      simp only at hpk h2
      rw [hpk, h2]
    · rw [if_neg hpk]
  calc col.map (fun p => if p.1 = k then (k, r) else p) = col.map id :=
        List.map_congr_left this
    _ = col := List.map_id col

/-- Ingesting more chunks preserves the presence of a key. -/
theorem addDocuments_hasKey (chunks : List Chunk) (embed : PyStr → List ℚ) :
    ∀ (col : Collection) (k : PyStr), (∃ p ∈ col, p.1 = k) →
    ∃ p ∈ addDocuments col chunks embed, p.1 = k := by
  induction chunks with
  | nil => intro col k hk; exact hk
  | cons ch t ih =>
    intro col k hk
    exact ih _ k (hasKey_collectionAdd_mono col k ch.chunkId _ hk)

/-- Ingesting chunks whose ids avoid `k` preserves key-record uniformity
at `k`. -/
theorem addDocuments_uniform (chunks : List Chunk) (embed : PyStr → List ℚ) :
    ∀ (col : Collection) (k : PyStr) (r : StoreRecord),
    (∀ ch ∈ chunks, ¬ ch.chunkId = k) →
    (∀ p ∈ col, p.1 = k → p.2 = r) →
    ∀ p ∈ addDocuments col chunks embed, p.1 = k → p.2 = r := by
  induction chunks with
  | nil => intro col k r _ hu; exact hu
  | cons ch t ih =>
    intro col k r hch hu
    refine ih _ k r (fun c hc => hch c (List.mem_cons_of_mem ch hc)) ?_
    exact uniform_collectionAdd_preserve col k r ch.chunkId _
      (hch ch (List.mem_cons_self ch t)) hu

/-- C6: the collection write is an upsert — the written id subsequently
looks up the written record — and re-ingesting an identical chunk list
(with distinct ids, as content-hash ids are designed to be) leaves the
collection, and hence its record count, unchanged. -/
theorem add_documents_upsert_idempotent :
    (∀ (col : Collection) (k : PyStr) (r : StoreRecord),
      colLookup (collectionAdd col k r) k = some r) ∧
    ∀ (col : Collection) (chunks : List Chunk) (embed : PyStr → List ℚ),
      (chunks.map Chunk.chunkId).Nodup →
      addDocuments (addDocuments col chunks embed) chunks embed =
        addDocuments col chunks embed := by
  refine ⟨colLookup_collectionAdd, ?_⟩
  intro col chunks embed hnd
  induction chunks generalizing col with
  | nil => rfl
  | cons ch t ih =>
    rw [List.map_cons, List.nodup_cons] at hnd
    obtain ⟨hni, hnd2⟩ := hnd
    show addDocuments
        (collectionAdd
          (addDocuments (collectionAdd col ch.chunkId (chunkRecord embed ch)) t embed)
          ch.chunkId (chunkRecord embed ch)) t embed =
      addDocuments (collectionAdd col ch.chunkId (chunkRecord embed ch)) t embed
    have hAk : collectionAdd
        (addDocuments (collectionAdd col ch.chunkId (chunkRecord embed ch)) t embed)
        ch.chunkId (chunkRecord embed ch) =
        addDocuments (collectionAdd col ch.chunkId (chunkRecord embed ch)) t embed := by
      apply collectionAdd_eq_self
      · exact addDocuments_hasKey t embed _ ch.chunkId
          (hasKey_collectionAdd_self col ch.chunkId _)
      · refine addDocuments_uniform t embed _ ch.chunkId _ ?_
          (uniform_collectionAdd_self col ch.chunkId _)
        intro c hc he
        exact hni (he ▸ List.mem_map_of_mem Chunk.chunkId hc)
    rw [hAk]
    exact ih _ hnd2

/-- Witness for `add_documents_upsert_idempotent` at a concrete record and
a one-chunk ingestion. -/
theorem add_documents_upsert_idempotent_witness :
    colLookup (collectionAdd [] (pys "k") ⟨pys "t", [], pys "s"⟩) (pys "k") =
      some ⟨pys "t", [], pys "s"⟩ ∧
    addDocuments (addDocuments [] [mkChunk (pys "c") (pys "s")] (fun _ => []))
        [mkChunk (pys "c") (pys "s")] (fun _ => []) =
      addDocuments [] [mkChunk (pys "c") (pys "s")] (fun _ => []) :=
  ⟨add_documents_upsert_idempotent.1 [] (pys "k") ⟨pys "t", [], pys "s"⟩,
   add_documents_upsert_idempotent.2 [] [mkChunk (pys "c") (pys "s")]
     (fun _ => []) (by simp)⟩

example : pySplitOn (pys " ") (pys " hello ") = [[], pys "hello", []] := by decide
example : pySplitOn (pys "aa") (pys "aaa") = [[], pys "a"] := by decide
example : pySplitOn (pys "b") (pys "ab") = [pys "a", []] := by decide
example : pyContains (pys "this") (pys "hi") = true := by decide
example : pyWords (pys " aa  bb ") = [pys "aa", pys "bb"] := by decide
example : collapseNewlines (pys "a\n\n\n\nb") = pys "a\n\nb" := by decide
example : chooseSeparator SEPARATORS (pys " hello ") = pys " " := by decide
example : chunkContents (pys " hello ") 1000 = [pys "hello"] := by decide
example : chunkContents (pys "a. . b") 2 = [pys "a. . b"] := by decide
example : (pyWords (pys "a. . b")).length = 3 := by decide
example : ((pySplitOn (pys ". ") (pys "a. . b")).map splitLen).sum = 2 := by decide
